import Mathlib

/-!
Shallow embedding of the `custom-slice` Rust crate (`src/lib.rs`): header-prefixed
slice and string allocations (`HeaderSlice<T, Header>`, `HeaderStr<Header>`), their
layout computation, iterator-based initialization with partial-failure reporting,
clone/copy constructors, the thin-pointer erasure bridge, and the comparison /
hashing implementations.

Machine integers are modelled as `Nat`; the target is 64-bit, so `usize` has size
and alignment 8 and `isize::MAX = 2^63 - 1`.  The payload memory of one allocation
is modelled as a function `Nat → Option T` from payload indices to optionally
initialized cells; the length word and header field of the allocation are modelled
as separate optional slots, so that "never written" is observable.
-/

/-! ## Layout arithmetic (`core::alloc::Layout`) -/

/-- `isize::MAX` on the 64-bit target. -/
def isizeMax : Nat := 2 ^ 63 - 1

/-- `core::alloc::Layout`: a size and an alignment.  Real layouts keep
`align` a power of two and `size ≤ isizeMax - (align - 1)`; theorems that
need these invariants take them as hypotheses. -/
structure Layout where
  size : Nat
  align : Nat
deriving DecidableEq, Repr

/-- Round `size` up to the next multiple of `align`
(`size + padding_needed_for(align)` in `Layout`). -/
def roundUp (size align : Nat) : Nat := (size + align - 1) / align * align

/-- `Layout::array::<T>(n)` given the element layout: size is `elem.size * n`,
alignment is the element's; errors when the rounded size would exceed
`isize::MAX` (this check subsumes the `usize` multiplication overflow check). -/
def layoutArray (elem : Layout) (n : Nat) : Option Layout :=
  let arraySize := elem.size * n
  if arraySize > isizeMax - (elem.align - 1) then none
  else some ⟨arraySize, elem.align⟩

/-- `Layout::extend(next)`: pad `self.size` up to `next.align` to get the
offset of the new field, add `next.size`, take the max alignment; errors when
the new size fails the `Layout::from_size_align` bound. Returns the new layout
and the offset of `next` inside it. -/
def layoutExtend (a b : Layout) : Option (Layout × Nat) :=
  let newAlign := max a.align b.align
  let offset := roundUp a.size b.align
  let newSize := offset + b.size
  if newSize > isizeMax - (newAlign - 1) then none
  else some (⟨newSize, newAlign⟩, offset)

/-- `Layout::pad_to_align()`: round the size up to the alignment. -/
def pad_to_align (l : Layout) : Layout := ⟨roundUp l.size l.align, l.align⟩

/-- The layout of `usize` on the 64-bit target. -/
def usizeLayout : Layout := ⟨8, 8⟩

/-- `HeaderSlice::<T, Header>::layout_for(len)`, parametrized by the layouts of
`T` and `Header`: extend the `usize` length-word layout by the header layout,
then by the `[T; len]` array layout, and pad the result to its alignment. -/
def layout_for (tl hl : Layout) (len : Nat) : Option Layout :=
  match layoutArray tl len with
  | none => none
  | some values =>
    match layoutExtend usizeLayout hl with
    | none => none
    | some (part1, _) =>
      match layoutExtend part1 values with
      | none => none
      | some (part2, _) => some (pad_to_align part2)

/-- The offset of the `[T; len]` payload inside `layout_for tl hl len`: the
offset returned by the second `extend`, which the source discards. -/
def payloadOffset (tl hl : Layout) (len : Nat) : Option Nat :=
  match layoutArray tl len with
  | none => none
  | some values =>
    match layoutExtend usizeLayout hl with
    | none => none
    | some (part1, _) =>
      match layoutExtend part1 values with
      | none => none
      | some (_, offset) => some offset

/-- `HeaderStr::<Header>::layout_for(len)`: identical computation with `u8`
(size 1, alignment 1) as the element type. -/
def headerStrLayoutFor (hl : Layout) (len : Nat) : Option Layout :=
  layout_for ⟨1, 1⟩ hl len

/-! ## One allocation's memory -/

/-- The memory of one `HeaderSlice` allocation: the length word and the header
field (each `none` until written) and the payload cells, indexed from the
payload base (`slice_head`), each `none` until a value is written there. -/
structure Mem (T H : Type) where
  lengthWord : Option Nat
  header : Option H
  cells : Nat → Option T

/-- Freshly allocated, fully uninitialized memory. -/
def freshMem (T H : Type) : Mem T H := ⟨none, none, fun _ => none⟩

/-! ## `SliceWriter` and `new_into` -/

/-- `SliceWriter<T>`'s state, with the two raw pointers in payload-index
space: `start` (the pointer the writer was created with), `ptr` (where
`write` stores), and `len` (the count of writes).  `SliceWriter::new(ptr)`
starts with `start = ptr` and `len = 0`; `new_into` passes the slice head,
so both pointers begin at cell 0. -/
structure SliceWriter where
  start : Nat
  ptr : Nat
  len : Nat

/-- `SliceWriter::write(value)` exactly as in the source: store the value at
`self.ptr` and increment `self.len`.  The source never advances `self.ptr`,
so successive writes all land at the same cell, each overwriting the
previous value. -/
def sliceWrite {T : Type} (cells : Nat → Option T) (w : SliceWriter) (v : T) :
    (Nat → Option T) × SliceWriter :=
  (Function.update cells w.ptr (some v), { w with len := w.len + 1 })

/-- The `for value in iter.into_iter().take(length)` loop of `new_into`:
fold `SliceWriter::write` over the yielded values. -/
def writeLoop {T : Type} :
    (Nat → Option T) × SliceWriter → List T → (Nat → Option T) × SliceWriter
  | s, [] => s
  | (cells, w), v :: rest => writeLoop (sliceWrite cells w v) rest

/-- `HeaderSliceInitError<T, Header>`: the partial-initialization error of
`new_into`.  `dataPtr` is the payload base in payload-index space (always 0
for the slice head), `length` the number of items written, `expectedLength`
the requested length. -/
structure HeaderSliceInitError (T H : Type) where
  dataPtr : Nat
  header : H
  length : Nat
  expectedLength : Nat

/-- `HeaderSliceInitError::written_len`. -/
def HeaderSliceInitError.written_len {T H : Type} (e : HeaderSliceInitError T H) : Nat :=
  e.length

/-- `HeaderSliceInitError::drop_in_place`: destroy the `length` cells starting
at `dataPtr` and return the header.  The second component is the list of cell
contents destroyed, in order, so that destruction counts are observable. -/
def HeaderSliceInitError.drop_in_place {T H : Type} (e : HeaderSliceInitError T H)
    (cells : Nat → Option T) : H × List (Option T) :=
  (e.header, (List.range e.length).map fun i => cells (e.dataPtr + i))

/-- `HeaderSlice::new_into(ptr, length, header, iter)`.  The iterator is a list
of the items it actually yields; `iter.into_iter().take(length)` is
`List.take length`.  The writer loop runs `SliceWriter::write` on each taken
item (all at the never-advancing `ptr`); if the writer's `len` equals
`length`, the length word and header are written and the fat pointer's length
(`Ok`) is returned; otherwise the error carries the payload base, the header,
the written count and the expected length, and the length word and header
slots are left untouched. -/
def new_into {T H : Type} (mem : Mem T H) (length : Nat) (header : H) (iter : List T) :
    Mem T H × Except (HeaderSliceInitError T H) Nat :=
  let taken := iter.take length
  let written := writeLoop (mem.cells, ⟨0, 0, 0⟩) taken
  if (written.2).len = length then
    (⟨some length, some header, written.1⟩, .ok length)
  else
    ({ mem with cells := written.1 },
     .error ⟨0, header, (written.2).len, length⟩)

/-! ## Copy and clone constructors -/

/-- `ptr::copy_from_nonoverlapping` of a whole slice into the payload cells. -/
def copyCells {T : Type} (cells : Nat → Option T) (slice : List T) : Nat → Option T :=
  fun i => if h : i < slice.length then some (slice.get ⟨i, h⟩) else cells i

/-- `HeaderSlice::copy_from_into(ptr, header, slice)`: write the length word
and header, copy the slice bytes/elements into the payload, return the fat
pointer's length. -/
def copy_from_into {T H : Type} (mem : Mem T H) (header : H) (slice : List T) :
    Mem T H × Nat :=
  (⟨some slice.length, some header, copyCells mem.cells slice⟩, slice.length)

/-- `HeaderSlice::clone_from_into(ptr, header, slice)`: run `new_into` with
`slice.len()` as the length and the slice's (cloned) elements as the iterator;
the `Err` arm is `unreachable_unchecked`, modelled as `none`. -/
def clone_from_into {T H : Type} (mem : Mem T H) (header : H) (slice : List T) :
    Option (Mem T H × Nat) :=
  match new_into mem slice.length header slice with
  | (m, .ok len) => some (m, len)
  | (_, .error _) => none

/-! ## Allocation and the fallible constructors -/

/-- `TryNewError<Header>`: the three-way error union of the fallible
constructors. -/
inductive TryNewError (H : Type) where
  | layoutTooLarge : H → TryNewError H
  | notEnoughItems : H → TryNewError H
  | allocError : H → Layout → TryNewError H
deriving DecidableEq, Repr

/-- The header carried by a `TryNewError` (every variant has one). -/
def TryNewError.headerOf {H : Type} : TryNewError H → H
  | .layoutTooLarge h => h
  | .notEnoughItems h => h
  | .allocError h _ => h

/-- `TryNewError::with_header`: install a header into a header-less error. -/
def TryNewError.with_header {H : Type} : TryNewError Unit → H → TryNewError H
  | .layoutTooLarge (), h => .layoutTooLarge h
  | .notEnoughItems (), h => .notEnoughItems h
  | .allocError () l, h => .allocError h l

/-- The free function `alloc::<T, Header>(len)`: compute the layout (errors
become `LayoutTooLarge`), ask the allocator — modelled by the predicate
`alive` on layouts — for memory (`null` becomes `AllocError` carrying the
layout), and return fresh memory. -/
def allocRaw (T H : Type) (tl hl : Layout) (alive : Layout → Bool) (len : Nat) :
    Except (TryNewError Unit) (Mem T H) :=
  match layout_for tl hl len with
  | none => .error (.layoutTooLarge ())
  | some l => if alive l then .ok (freshMem T H) else .error (.allocError () l)

/-- An `ExactSizeIterator` as `try_new` sees it: a claimed length (`len()`)
and the list of items actually yielded.  An honest iterator has
`items.length = claimed`. -/
structure ExactIter (T : Type) where
  claimed : Nat
  items : List T

/-- `HeaderSlice::try_new(header, iter)`: read `iter.len()`, allocate for that
length, run `new_into`; on partial failure call `drop_in_place` on the error
and return `NotEnoughItems` with the recovered header.  The second component
is the list of cell contents destroyed by the error path (empty on success),
so destruction counts are observable. -/
def try_new {T H : Type} (tl hl : Layout) (alive : Layout → Bool) (header : H)
    (it : ExactIter T) :
    Except (TryNewError H) (Mem T H × Nat) × List (Option T) :=
  let len := it.claimed
  match allocRaw T H tl hl alive len with
  | .error e => (.error (e.with_header header), [])
  | .ok mem =>
    match new_into mem len header it.items with
    | (m, .ok l) => (.ok (m, l), [])
    | (m, .error e) =>
      let (hd, dropped) := e.drop_in_place m.cells
      (.error (.notEnoughItems hd), dropped)

/-- `HeaderSlice::try_clone_from(header, slice)`: allocate for `slice.len()`
then `clone_from_into` (whose unreachable arm is `none`). -/
def try_clone_from {T H : Type} (tl hl : Layout) (alive : Layout → Bool) (header : H)
    (slice : List T) : Option (Except (TryNewError H) (Mem T H × Nat)) :=
  match allocRaw T H tl hl alive slice.length with
  | .error e => some (.error (e.with_header header))
  | .ok mem => (clone_from_into mem header slice).map .ok

/-- `HeaderSlice::try_copy_from(header, slice)`: allocate for `slice.len()`
then `copy_from_into`. -/
def try_copy_from {T H : Type} (tl hl : Layout) (alive : Layout → Bool) (header : H)
    (slice : List T) : Except (TryNewError H) (Mem T H × Nat) :=
  match allocRaw T H tl hl alive slice.length with
  | .error e => .error (e.with_header header)
  | .ok mem => .ok (copy_from_into mem header slice)

/-! ## The erasure bridge (`thin_ptr::Erasable`) -/

/-- A fat pointer to a `HeaderSlice` or `HeaderStr`: an address and the
slice/str length stored in the pointer metadata. -/
structure FatPtr where
  addr : Nat
  len : Nat
deriving DecidableEq, Repr

/-- Erasing a fat pointer keeps only its address. -/
def erase (p : FatPtr) : Nat := p.addr

/-- `<HeaderSlice<T, Header> as Erasable>::unerase(this)`: read the machine
word stored at the address (`readWord` models the word-at-address view of
global memory; the length word is at offset 0 of every such allocation) and
synthesize a fat pointer with that length and the unchanged address. -/
def uneraseHeaderSlice (readWord : Nat → Nat) (this : Nat) : FatPtr :=
  ⟨this, readWord this⟩

/-- `<HeaderStr<Header> as Erasable>::unerase(this)`: same mechanism. -/
def uneraseHeaderStr (readWord : Nat → Nat) (this : Nat) : FatPtr :=
  ⟨this, readWord this⟩

/-- Reading a whole `HeaderSlice` value through a fat pointer from its
allocation's memory: the header field and the first `p.len` payload cells. -/
def readValue {T H : Type} (mem : Mem T H) (p : FatPtr) :
    Option Nat × Option H × List (Option T) :=
  (mem.lengthWord, mem.header, (List.range p.len).map mem.cells)

/-! ## `HeaderStr` -/

/-- A `&str` is its UTF-8 bytes (`s.as_bytes()`); validity is a separate
predicate (`isValidUtf8`). -/
def strBytes (s : List Nat) : List Nat := s

/-- Is `b` a UTF-8 continuation byte (`0x80..=0xBF`)? -/
def isCont (b : Nat) : Bool := 0x80 ≤ b && b ≤ 0xBF

/-- RFC 3629 well-formedness of a byte sequence: the UTF-8 invariant of
`str`. -/
def isValidUtf8 : List Nat → Bool
  | [] => true
  | b :: r =>
    if b ≤ 0x7F then isValidUtf8 r
    else match r with
      | [] => false
      | b2 :: r2 =>
        if 0xC2 ≤ b && b ≤ 0xDF then isCont b2 && isValidUtf8 r2
        else match r2 with
          | [] => false
          | b3 :: r3 =>
            if b = 0xE0 then (0xA0 ≤ b2 && b2 ≤ 0xBF) && isCont b3 && isValidUtf8 r3
            else if (0xE1 ≤ b && b ≤ 0xEC) || b = 0xEE || b = 0xEF then
              isCont b2 && isCont b3 && isValidUtf8 r3
            else if b = 0xED then (0x80 ≤ b2 && b2 ≤ 0x9F) && isCont b3 && isValidUtf8 r3
            else match r3 with
              | [] => false
              | b4 :: r4 =>
                if b = 0xF0 then
                  (0x90 ≤ b2 && b2 ≤ 0xBF) && isCont b3 && isCont b4 && isValidUtf8 r4
                else if 0xF1 ≤ b && b ≤ 0xF3 then
                  isCont b2 && isCont b3 && isCont b4 && isValidUtf8 r4
                else if b = 0xF4 then
                  (0x80 ≤ b2 && b2 ≤ 0x8F) && isCont b3 && isCont b4 && isValidUtf8 r4
                else false

/-- `HeaderStr::new_into(ptr, s, header)`: exactly
`HeaderSlice::<u8, Header>::copy_from_into(ptr, header, s.as_bytes())`
followed by the pointer cast (the identity on the model). -/
def headerStrNewInto {H : Type} (mem : Mem Nat H) (s : List Nat) (header : H) :
    Mem Nat H × Nat :=
  copy_from_into mem header (strBytes s)

/-- The byte list stored in the first `n` payload cells (reading a constructed
`HeaderStr`'s `str` field). -/
def storedBytes {H : Type} (mem : Mem Nat H) (n : Nat) : List (Option Nat) :=
  (List.range n).map mem.cells

/-- The byte list stored in the first `n` payload cells, with uninitialized
cells read as `0` (total reading of a fully-initialized `str` field). -/
def storedBytesD {H : Type} (mem : Mem Nat H) (n : Nat) : List Nat :=
  (List.range n).map fun i => (mem.cells i).getD 0

/-! ## Comparison, equality, hashing -/

/-- The value a constructed `HeaderSlice<T, Header>` dereferences to. -/
structure HeaderSliceVal (T H : Type) where
  header : H
  slice : List T

/-- The value a constructed `HeaderStr<Header>` dereferences to; `str` is the
UTF-8 byte list. -/
structure HeaderStrVal (H : Type) where
  header : H
  str : List Nat

/-- `[T]::eq`: equal lengths and pointwise-equal elements, given `T::eq`. -/
def sliceBEq {T : Type} (eqT : T → T → Bool) : List T → List T → Bool
  | [], [] => true
  | x :: xs, y :: ys => eqT x y && sliceBEq eqT xs ys
  | _, _ => false

/-- `[T]::partial_cmp`: lexicographic, propagating `None` from the element
comparison; a strict prefix is `Less`. -/
def slicePCmp {T : Type} (c : T → T → Option Ordering) :
    List T → List T → Option Ordering
  | [], [] => some .eq
  | [], _ :: _ => some .lt
  | _ :: _, [] => some .gt
  | x :: xs, y :: ys =>
    match c x y with
    | some .eq => slicePCmp c xs ys
    | o => o

/-- `[T]::cmp`: lexicographic; a strict prefix is `Less`. -/
def sliceCmp {T : Type} (c : T → T → Ordering) : List T → List T → Ordering
  | [], [] => .eq
  | [], _ :: _ => .lt
  | _ :: _, [] => .gt
  | x :: xs, y :: ys =>
    match c x y with
    | .eq => sliceCmp c xs ys
    | o => o

/-- `PartialEq for HeaderSlice`: `self.header == other.header && self.slice ==
other.slice`. -/
def hsBEq {T H : Type} (eqH : H → H → Bool) (eqT : T → T → Bool)
    (a b : HeaderSliceVal T H) : Bool :=
  eqH a.header b.header && sliceBEq eqT a.slice b.slice

/-- `PartialOrd for HeaderSlice`: the header's comparison when it is `Less` or
`Greater` (or `None`), the slices' comparison when it is `Equal`. -/
def hsPCmp {T H : Type} (cH : H → H → Option Ordering) (cT : T → T → Option Ordering)
    (a b : HeaderSliceVal T H) : Option Ordering :=
  match cH a.header b.header with
  | none => none
  | some .lt => some .lt
  | some .gt => some .gt
  | some .eq => slicePCmp cT a.slice b.slice

/-- `Ord for HeaderSlice`. -/
def hsCmp {T H : Type} (cH : H → H → Ordering) (cT : T → T → Ordering)
    (a b : HeaderSliceVal T H) : Ordering :=
  match cH a.header b.header with
  | .lt => .lt
  | .gt => .gt
  | .eq => sliceCmp cT a.slice b.slice

/-- `Hash for HeaderSlice`: feed the header to the hasher state, then the
slice. -/
def hsHash {T H S : Type} (hashH : H → S → S) (hashSlice : List T → S → S)
    (v : HeaderSliceVal T H) (s : S) : S :=
  hashSlice v.slice (hashH v.header s)

/-- `u8::cmp` on byte values. -/
def byteCmp (a b : Nat) : Ordering := compare a b

/-- `PartialEq for HeaderStr`: header equality and byte-wise `str` equality. -/
def hstrBEq {H : Type} (eqH : H → H → Bool) (a b : HeaderStrVal H) : Bool :=
  eqH a.header b.header && sliceBEq (fun x y => x == y) a.str b.str

/-- `PartialOrd for HeaderStr`: header first; byte-wise comparison of the
text when headers are order-equal (`str`'s order is total, so it never
returns `None` itself). -/
def hstrPCmp {H : Type} (cH : H → H → Option Ordering) (a b : HeaderStrVal H) :
    Option Ordering :=
  match cH a.header b.header with
  | none => none
  | some .lt => some .lt
  | some .gt => some .gt
  | some .eq => some (sliceCmp byteCmp a.str b.str)

/-- `Ord for HeaderStr`. -/
def hstrCmp {H : Type} (cH : H → H → Ordering) (a b : HeaderStrVal H) : Ordering :=
  match cH a.header b.header with
  | .lt => .lt
  | .gt => .gt
  | .eq => sliceCmp byteCmp a.str b.str

/-- `Hash for HeaderStr`: header first, then the text bytes. -/
def hstrHash {H S : Type} (hashH : H → S → S) (hashStr : List Nat → S → S)
    (v : HeaderStrVal H) (s : S) : S :=
  hashStr v.str (hashH v.header s)

/-- Hasher events, to observe the order in which a value is fed to a hasher. -/
inductive HashEv (T H : Type) where
  | hd : H → HashEv T H
  | elt : T → HashEv T H
deriving DecidableEq

/-- The trace hasher for headers: append a header event. -/
def traceHashH {T H : Type} (h : H) (s : List (HashEv T H)) : List (HashEv T H) :=
  s ++ [.hd h]

/-- The trace hasher for slices: append one event per element. -/
def traceHashSlice {T H : Type} (l : List T) (s : List (HashEv T H)) : List (HashEv T H) :=
  s ++ l.map .elt

/-! ## Lemmas about the writer loop and `new_into` -/

theorem writeLoop_len {T : Type} (l : List T) (c : Nat → Option T) (w : SliceWriter) :
    ((writeLoop (c, w) l).2).len = w.len + l.length := by
  induction l generalizing c w with
  | nil => simp [writeLoop]
  | cons v rest ih =>
    simp only [writeLoop, sliceWrite, List.length_cons]
    rw [ih]
    simp only []
    omega

theorem writeLoop_cells_ne {T : Type} (l : List T) (c : Nat → Option T) (w : SliceWriter)
    (i : Nat) (hi : i ≠ w.ptr) : (writeLoop (c, w) l).1 i = c i := by
  induction l generalizing c w with
  | nil => simp [writeLoop]
  | cons v rest ih =>
    simp only [writeLoop, sliceWrite]
    rw [ih (Function.update c w.ptr (some v)) { w with len := w.len + 1 } hi]
    exact Function.update_noteq hi _ _

theorem writeLoop_cells_ptr {T : Type} (l : List T) (c : Nat → Option T) (w : SliceWriter)
    (hl : l ≠ []) : (writeLoop (c, w) l).1 w.ptr = l.getLast? := by
  induction l generalizing c w with
  | nil => exact absurd rfl hl
  | cons v rest ih =>
    cases rest with
    | nil =>
      simp [writeLoop, sliceWrite, Function.update_same]
    | cons r1 rs =>
      have h1 := ih (Function.update c w.ptr (some v)) ({ w with len := w.len + 1 })
        (by simp)
      simp only [writeLoop, sliceWrite]
      rw [List.getLast?_cons_cons]
      exact h1

theorem new_into_cells_ne0 {T H : Type} (mem : Mem T H) (length : Nat) (header : H)
    (iter : List T) (i : Nat) (hi : i ≠ 0) :
    ((new_into mem length header iter).1).cells i = mem.cells i := by
  have hw := writeLoop_cells_ne (iter.take length) mem.cells ⟨0, 0, 0⟩ i hi
  by_cases h : ((writeLoop (mem.cells, (⟨0, 0, 0⟩ : SliceWriter)) (iter.take length)).2).len
      = length
  · simp [new_into, h, hw]
  · simp [new_into, h, hw]

theorem new_into_cells_head {T H : Type} (mem : Mem T H) (length : Nat) (header : H)
    (iter : List T) (hne : iter.take length ≠ []) :
    ((new_into mem length header iter).1).cells 0 = (iter.take length).getLast? := by
  have hw := writeLoop_cells_ptr (iter.take length) mem.cells ⟨0, 0, 0⟩ hne
  by_cases h : ((writeLoop (mem.cells, (⟨0, 0, 0⟩ : SliceWriter)) (iter.take length)).2).len
      = length
  · simp [new_into, h, hw]
  · simp [new_into, h, hw]

theorem new_into_cells_nil {T H : Type} (mem : Mem T H) (length : Nat) (header : H)
    (iter : List T) (i : Nat) (hnil : iter.take length = []) :
    ((new_into mem length header iter).1).cells i = mem.cells i := by
  simp only [new_into, hnil, writeLoop]
  split <;> rfl

theorem new_into_snd {T H : Type} (mem : Mem T H) (length : Nat) (header : H)
    (iter : List T) :
    (new_into mem length header iter).2 =
      if (iter.take length).length = length then .ok length
      else .error ⟨0, header, (iter.take length).length, length⟩ := by
  have hw := writeLoop_len (iter.take length) mem.cells ⟨0, 0, 0⟩
  simp only [Nat.zero_add] at hw
  simp only [new_into, hw]
  split <;> rfl

theorem new_into_fst_lengthWord {T H : Type} (mem : Mem T H) (length : Nat) (header : H)
    (iter : List T) :
    ((new_into mem length header iter).1).lengthWord =
      if (iter.take length).length = length then some length else mem.lengthWord := by
  have hw := writeLoop_len (iter.take length) mem.cells ⟨0, 0, 0⟩
  simp only [Nat.zero_add] at hw
  simp only [new_into, hw]
  split <;> rfl

theorem new_into_fst_header {T H : Type} (mem : Mem T H) (length : Nat) (header : H)
    (iter : List T) :
    ((new_into mem length header iter).1).header =
      if (iter.take length).length = length then some header else mem.header := by
  have hw := writeLoop_len (iter.take length) mem.cells ⟨0, 0, 0⟩
  simp only [Nat.zero_add] at hw
  simp only [new_into, hw]
  split <;> rfl

theorem take_length_full {T : Type} (l : List T) (n : Nat) (h : n ≤ l.length) :
    (l.take n).length = n := by
  simp [List.length_take]
  omega

theorem new_into_exact {T H : Type} (mem : Mem T H) (n : Nat) (header : H)
    (items : List T) (hn : n ≤ items.length) :
    (new_into mem n header items).2 = Except.ok n
      ∧ ((new_into mem n header items).1).lengthWord = some n
      ∧ ((new_into mem n header items).1).header = some header := by
  have hfull := take_length_full items n hn
  refine ⟨?_, ?_, ?_⟩
  · rw [new_into_snd, if_pos hfull]
  · rw [new_into_fst_lengthWord, if_pos hfull]
  · rw [new_into_fst_header, if_pos hfull]

theorem try_new_ok {T H : Type} (tl hl : Layout) (alive : Layout → Bool) (header : H)
    (it : ExactIter T) (L : Layout)
    (hL : layout_for tl hl it.claimed = some L) (halive : alive L = true)
    (hlen : it.claimed ≤ it.items.length) :
    (try_new tl hl alive header it).1 =
        Except.ok ((new_into (freshMem T H) it.claimed header it.items).1, it.claimed)
      ∧ (try_new tl hl alive header it).2 = [] := by
  have h2 := (new_into_exact (freshMem T H) it.claimed header it.items hlen).1
  have hpair : new_into (freshMem T H) it.claimed header it.items =
      ((new_into (freshMem T H) it.claimed header it.items).1, Except.ok it.claimed) := by
    rw [← h2]
  simp only [try_new, allocRaw]
  rw [hL]
  simp only [halive, if_true]
  rw [hpair]
  exact ⟨rfl, rfl⟩

/-! ## Claim theorems -/

/-- Claim C1 (code bug): building with target length `2` from the two-item
iterator `[5, 6]` reports success — the writer's `len` counts two writes, so
`new_into` returns `Ok` with stored length `2` and the header, and `try_new`
boxes it — but the payload is not the iterator's sequence: `SliceWriter::write`
never advances `ptr`, so both items are written at the slice head, leaving
cell 0 holding the last item `6` and cell 1 uninitialized instead of
cells `5, 6`. -/
theorem claim_C1 :
    (new_into (freshMem Nat Nat) 2 7 [5, 6]).2 = Except.ok 2
      ∧ ((new_into (freshMem Nat Nat) 2 7 [5, 6]).1).lengthWord = some 2
      ∧ ((new_into (freshMem Nat Nat) 2 7 [5, 6]).1).header = some 7
      ∧ ((new_into (freshMem Nat Nat) 2 7 [5, 6]).1).cells 0 = some 6
      ∧ ((new_into (freshMem Nat Nat) 2 7 [5, 6]).1).cells 1 = none
      ∧ ¬ (((new_into (freshMem Nat Nat) 2 7 [5, 6]).1).cells 0 = some 5
            ∧ ((new_into (freshMem Nat Nat) 2 7 [5, 6]).1).cells 1 = some 6) := by
  refine ⟨rfl, rfl, rfl, by decide, by decide, by decide⟩

/-- Claim C2 (code bug): with an exact-size iterator claiming `3` items but
yielding `[4, 5]`, `try_new` does return the insufficient-items error with
the header, but the destruction discipline the claim promises is broken: the
non-advancing writer overwrote `4` at the slice head (leaking it — `4` is
never destroyed), and `drop_in_place` destroys the two cells at the data
pointer, of which cell 1 was never initialized (`none` in the destruction
trace — undefined behaviour for droppable element types). -/
theorem claim_C2 :
    (try_new ⟨8, 8⟩ ⟨8, 8⟩ (fun _ => true) (7 : Nat) ⟨3, [4, 5]⟩).1
        = Except.error (TryNewError.notEnoughItems 7)
      ∧ (try_new ⟨8, 8⟩ ⟨8, 8⟩ (fun _ => true) (7 : Nat) ⟨3, [4, 5]⟩).2
        = [some 5, none]
      ∧ none ∈ (try_new ⟨8, 8⟩ ⟨8, 8⟩ (fun _ => true) (7 : Nat) ⟨3, [4, 5]⟩).2
      ∧ some 4 ∉ (try_new ⟨8, 8⟩ ⟨8, 8⟩ (fun _ => true) (7 : Nat) ⟨3, [4, 5]⟩).2 := by
  refine ⟨rfl, by decide, by decide, by decide⟩

/-- Claim C7: `new_into` pulls at most `length` items from the source
(`take length` — it stops requesting once `length` have been yielded), never
reads past what the source actually yields, performs exactly one write per
pulled item, and leaves every cell at or beyond `length` untouched. -/
theorem claim_C7 {T H : Type} (mem : Mem T H) (length : Nat) (header : H)
    (items : List T) :
    (items.take length).length ≤ length
      ∧ (items.take length).length ≤ items.length
      ∧ ((writeLoop (mem.cells, ⟨0, 0, 0⟩) (items.take length)).2).len
          = (items.take length).length
      ∧ ∀ i, length ≤ i →
          ((new_into mem length header items).1).cells i = mem.cells i := by
  refine ⟨?_, ?_, ?_, ?_⟩
  · simp [List.length_take]
  · simp [List.length_take]
  · have hw := writeLoop_len (items.take length) mem.cells ⟨0, 0, 0⟩
    simpa using hw
  · intro i hi
    by_cases h0 : length = 0
    · exact new_into_cells_nil mem length header items i (by simp [h0])
    · exact new_into_cells_ne0 mem length header items i (by omega)

/-- Witness for C7 at length `2`, source `[1, 2, 3]`: at most two items are
pulled and cell `5` stays untouched. -/
theorem claim_C7_witness :
    (([1, 2, 3] : List Nat).take 2).length ≤ 2
      ∧ ((new_into (freshMem Nat Nat) 2 9 [1, 2, 3]).1).cells 5 = none := by
  have h := claim_C7 (freshMem Nat Nat) 2 9 [1, 2, 3]
  refine ⟨h.1, ?_⟩
  rw [h.2.2.2 5 (by decide)]
  rfl

/-- Claim C10 (code bug): at target length `3` with the two-item iterator
`[4, 5]`, `new_into` does return the error with the header by value,
`written_len = 2 < expected_length = 3`, and the length word and header slots
untouched — but the two written elements do not remain constructed and
reachable through the error's data pointer: the non-advancing writer left
only the last item `5` at the data pointer and the cell at offset 1
uninitialized, so `4` is unreachable (leaked). -/
theorem claim_C10 :
    (new_into (freshMem Nat Nat) 3 7 [4, 5]).2
        = Except.error ⟨0, 7, 2, 3⟩
      ∧ ((new_into (freshMem Nat Nat) 3 7 [4, 5]).1).lengthWord = none
      ∧ ((new_into (freshMem Nat Nat) 3 7 [4, 5]).1).header = none
      ∧ ((new_into (freshMem Nat Nat) 3 7 [4, 5]).1).cells 0 = some 5
      ∧ ((new_into (freshMem Nat Nat) 3 7 [4, 5]).1).cells 1 = none
      ∧ ¬ (((new_into (freshMem Nat Nat) 3 7 [4, 5]).1).cells 0 = some 4
            ∧ ((new_into (freshMem Nat Nat) 3 7 [4, 5]).1).cells 1 = some 5) := by
  refine ⟨rfl, rfl, rfl, by decide, by decide, by decide⟩

theorem clone_from_into_ok {T H : Type} (mem : Mem T H) (header : H) (slice : List T) :
    clone_from_into mem header slice =
      some ((new_into mem slice.length header slice).1, slice.length) := by
  have h := (new_into_exact mem slice.length header slice le_rfl).1
  have hpair : new_into mem slice.length header slice =
      ((new_into mem slice.length header slice).1, Except.ok slice.length) := by
    rw [← h]
  unfold clone_from_into
  rw [hpair]

theorem layoutArray_eq {tl : Layout} {n : Nat} {v : Layout}
    (h : layoutArray tl n = some v) : v = ⟨tl.size * n, tl.align⟩ := by
  simp only [layoutArray] at h
  split at h
  · exact absurd h (by simp)
  · exact (Option.some.inj h).symm

theorem layoutExtend_eq {a b : Layout} {pr : Layout × Nat}
    (h : layoutExtend a b = some pr) :
    pr = (⟨roundUp a.size b.align + b.size, max a.align b.align⟩,
          roundUp a.size b.align) := by
  simp only [layoutExtend] at h
  split at h
  · exact absurd h (by simp)
  · exact (Option.some.inj h).symm

theorem roundUp_mod {s a : Nat} (_ha : 0 < a) : roundUp s a % a = 0 := by
  simp [roundUp, Nat.mul_mod_left]

theorem storedBytesD_copy {H : Type} (mem : Mem Nat H) (s : List Nat) (header : H) :
    storedBytesD (copy_from_into mem header s).1 s.length = s := by
  unfold storedBytesD
  apply List.ext_get?
  intro i
  by_cases h : i < s.length
  · rw [List.get?_map, List.get?_range h, List.get?_eq_get h]
    simp [copy_from_into, copyCells, h]
  · rw [List.get?_map,
      List.get?_eq_none.2 (by simpa using h),
      List.get?_eq_none.2 (by simpa using h)]
    rfl

/-- Claim C3: erasing a constructed handle (whose stored length word, read at
its address, equals its fat-pointer length) to a bare address and recovering
it through `unerase` yields the identical fat pointer for both `HeaderSlice`
and `HeaderStr` — same address and length, hence the identical header and
payload when read from the untouched memory — and `unerase` depends on
nothing but the machine word at the handle's address. -/
theorem claim_C3 {T H : Type} (mem : Mem T H) (p : FatPtr) (readWord : Nat → Nat)
    (hstored : readWord p.addr = p.len) :
    uneraseHeaderSlice readWord (erase p) = p
      ∧ uneraseHeaderStr readWord (erase p) = p
      ∧ readValue mem (uneraseHeaderSlice readWord (erase p))
          = readValue (T := T) (H := H) mem p
      ∧ ∀ (r1 r2 : Nat → Nat) (a : Nat), r1 a = r2 a →
          uneraseHeaderSlice r1 a = uneraseHeaderSlice r2 a
            ∧ uneraseHeaderStr r1 a = uneraseHeaderStr r2 a := by
  obtain ⟨addr, len⟩ := p
  simp only [erase] at hstored ⊢
  have h1 : uneraseHeaderSlice readWord addr = (⟨addr, len⟩ : FatPtr) := by
    simp [uneraseHeaderSlice, hstored]
  have h2 : uneraseHeaderStr readWord addr = (⟨addr, len⟩ : FatPtr) := by
    simp [uneraseHeaderStr, hstored]
  refine ⟨h1, h2, by rw [h1], ?_⟩
  intro r1 r2 a ha
  exact ⟨by simp [uneraseHeaderSlice, ha], by simp [uneraseHeaderStr, ha]⟩

/-- Witness for C3 at address `4`, length `3`, with length word `3` stored at
the address. -/
theorem claim_C3_witness :
    uneraseHeaderSlice (fun _ => 3) (erase ⟨4, 3⟩) = (⟨4, 3⟩ : FatPtr)
      ∧ uneraseHeaderStr (fun _ => 3) (erase ⟨4, 3⟩) = (⟨4, 3⟩ : FatPtr) := by
  have h := claim_C3 (freshMem Nat Nat) ⟨4, 3⟩ (fun _ => 3) rfl
  exact ⟨h.1, h.2.1⟩

/-- Claim C4: when `layout_for` succeeds with `L`, the computation is the
successive extension of the `usize` length-word layout by the header layout
by the `[T; n]` array layout, padded to its alignment; `L.size` is a multiple
of `L.align`; the payload offset equals the `{usize, Header}` part's size
rounded up to the array's alignment; and for every length the computation is
total — it yields an error value or a layout, never a panic. -/
theorem claim_C4 (tl hl : Layout) (n : Nat) (L : Layout)
    (hL : layout_for tl hl n = some L) :
    (∃ values part1 part2 off1 off2,
        layoutArray tl n = some values
          ∧ layoutExtend usizeLayout hl = some (part1, off1)
          ∧ layoutExtend part1 values = some (part2, off2)
          ∧ L = pad_to_align part2
          ∧ payloadOffset tl hl n = some off2
          ∧ off2 = roundUp part1.size tl.align)
      ∧ L.size % L.align = 0
      ∧ ∀ m, layout_for tl hl m = none ∨ ∃ Lm, layout_for tl hl m = some Lm := by
  cases harr : layoutArray tl n with
  | none => simp [layout_for, harr] at hL
  | some values =>
  cases hext1 : layoutExtend usizeLayout hl with
  | none => simp [layout_for, harr, hext1] at hL
  | some pr1 =>
  obtain ⟨part1, off1⟩ := pr1
  cases hext2 : layoutExtend part1 values with
  | none => simp [layout_for, harr, hext1, hext2] at hL
  | some pr2 =>
  obtain ⟨part2, off2⟩ := pr2
  have hLval : L = pad_to_align part2 := by
    simp only [layout_for, harr, hext1, hext2, Option.some.injEq] at hL
    exact hL.symm
  have hvals := layoutArray_eq harr
  have hpr2 := layoutExtend_eq hext2
  have hoff : payloadOffset tl hl n = some off2 := by
    simp only [payloadOffset, harr, hext1, hext2]
  refine ⟨⟨values, part1, part2, off1, off2, rfl, rfl, hext2, hLval, hoff, ?_⟩,
    ?_, ?_⟩
  · have := congrArg Prod.snd hpr2
    simp only at this
    rw [this, hvals]
  · have halign : part2.align = max part1.align values.align := by
      have := congrArg (fun q => q.1.align) hpr2
      simpa using this
    have h8 : 8 ≤ part1.align := by
      have := congrArg (fun q => q.1.align) (layoutExtend_eq hext1)
      simp only [usizeLayout] at this
      simp [this]
    have hpos : 0 < part2.align := by
      rw [halign]
      omega
    rw [hLval]
    exact roundUp_mod hpos
  · intro m
    cases h : layout_for tl hl m with
    | none => exact Or.inl rfl
    | some Lm => exact Or.inr ⟨Lm, rfl⟩

/-- Witness for C4 at element layout `(4, 4)`, header layout `(8, 8)`,
`n = 3`: the computed layout is `(32, 8)` whose size is a multiple of its
alignment, and the payload sits at offset 16. -/
theorem claim_C4_witness :
    Layout.size ⟨32, 8⟩ % Layout.align ⟨32, 8⟩ = 0
      ∧ layout_for ⟨4, 4⟩ ⟨8, 8⟩ 3 = some ⟨32, 8⟩
      ∧ payloadOffset ⟨4, 4⟩ ⟨8, 8⟩ 3 = some 16 := by
  have h := claim_C4 ⟨4, 4⟩ ⟨8, 8⟩ 3 ⟨32, 8⟩ (by decide)
  refine ⟨h.2.1, by decide, ?_⟩
  obtain ⟨values, part1, part2, off1, off2, h1, h2, h3, h4, h5, h6⟩ := h.1
  rw [h5]
  have hp1 := layoutExtend_eq h2
  have : part1 = ⟨16, 8⟩ := by
    have := congrArg Prod.fst hp1
    simpa [usizeLayout, roundUp] using this
  rw [h6, this]
  rfl

/-- Claim C5 (code bug): the copying constructor is correct — copying
`[1, 2]` stores length `2`, the header, and the source bytes element for
element — but the cloning constructor routes through the non-advancing
`SliceWriter`: cloning `[1, 2]` still avoids the `Err`/`unreachable` arm
(the write count is exact), yet the produced payload holds the last element
`2` at cell 0 and leaves cell 1 uninitialized, so it is not
element-for-element equal to the source. -/
theorem claim_C5 :
    (clone_from_into (freshMem Nat Nat) 3 [1, 2]).isSome = true
      ∧ (new_into (freshMem Nat Nat) 2 3 [1, 2]).2 = Except.ok 2
      ∧ ((new_into (freshMem Nat Nat) 2 3 [1, 2]).1).cells 0 = some 2
      ∧ ((new_into (freshMem Nat Nat) 2 3 [1, 2]).1).cells 1 = none
      ∧ ¬ (((new_into (freshMem Nat Nat) 2 3 [1, 2]).1).cells 0 = some 1
            ∧ ((new_into (freshMem Nat Nat) 2 3 [1, 2]).1).cells 1 = some 2)
      ∧ ((copy_from_into (freshMem Nat Nat) 3 [1, 2]).1).lengthWord = some 2
      ∧ ((copy_from_into (freshMem Nat Nat) 3 [1, 2]).1).header = some 3
      ∧ ((copy_from_into (freshMem Nat Nat) 3 [1, 2]).1).cells 0 = some 1
      ∧ ((copy_from_into (freshMem Nat Nat) 3 [1, 2]).1).cells 1 = some 2 := by
  refine ⟨by decide, rfl, by decide, by decide, by decide, rfl, rfl, by decide, by decide⟩

/-- Claim C6 (code bug): the `LayoutTooLarge` and `AllocError` paths do carry
the caller's header back (`with_header` installs it into every variant), but
the `NotEnoughItems` path cannot promise the header unconditionally: before
returning it, `try_new` runs `drop_in_place` over the `written_len` cells at
the data pointer, and with the non-advancing writer all but the first of
those cells are uninitialized — the destruction trace below contains an
uninitialized cell (`none`), which is undefined behaviour for droppable
element types. -/
theorem claim_C6 :
    (∀ (e : TryNewError Unit) (h : Nat), (e.with_header h).headerOf = h)
      ∧ (try_new ⟨8, 8⟩ ⟨8, 8⟩ (fun _ => false) (5 : Nat) ⟨2, ([1, 2] : List Nat)⟩).1
          = Except.error (TryNewError.allocError 5 ⟨32, 8⟩)
      ∧ (TryNewError.allocError (5 : Nat) ⟨32, 8⟩).headerOf = 5
      ∧ (try_new ⟨8, 8⟩ ⟨8, 8⟩ (fun _ => true) (9 : Nat) ⟨4, [1, 2, 3]⟩).1
          = Except.error (TryNewError.notEnoughItems 9)
      ∧ (try_new ⟨8, 8⟩ ⟨8, 8⟩ (fun _ => true) (9 : Nat) ⟨4, [1, 2, 3]⟩).2
          = [some 3, none, none]
      ∧ none ∈ (try_new ⟨8, 8⟩ ⟨8, 8⟩ (fun _ => true) (9 : Nat) ⟨4, [1, 2, 3]⟩).2 := by
  refine ⟨?_, rfl, rfl, rfl, by decide, by decide⟩
  intro e h
  cases e <;> rfl

/-- Claim C8: equality, partial/total ordering and hashing on `HeaderSlice`
and `HeaderStr` are the lexicographic combination of `(header, payload)`: two
values are equal iff their headers and payloads are equal; for both partial
and total comparison on both types a header comparing `Less`/`Greater` (or
incomparable) decides the result regardless of payload, and the payload
(element-wise for slices, byte-wise for text) is compared only at order-equal
headers; the hasher is fed the header first and then the payload. -/
theorem claim_C8 {T H S : Type}
    (eqH : H → H → Bool) (eqT : T → T → Bool)
    (pcH : H → H → Option Ordering) (pcT : T → T → Option Ordering)
    (cH : H → H → Ordering) (cT : T → T → Ordering)
    (hashH : H → S → S) (hashSlice : List T → S → S) (hashStr : List Nat → S → S)
    (a b : HeaderSliceVal T H) (x y : HeaderStrVal H) (s : S) :
    (hsBEq eqH eqT a b = true
        ↔ (eqH a.header b.header = true ∧ sliceBEq eqT a.slice b.slice = true))
      ∧ (hstrBEq eqH x y = true
        ↔ (eqH x.header y.header = true
            ∧ sliceBEq (fun u v => u == v) x.str y.str = true))
      ∧ (pcH a.header b.header = some .lt → hsPCmp pcH pcT a b = some .lt)
      ∧ (pcH a.header b.header = some .gt → hsPCmp pcH pcT a b = some .gt)
      ∧ (pcH a.header b.header = none → hsPCmp pcH pcT a b = none)
      ∧ (pcH a.header b.header = some .eq
          → hsPCmp pcH pcT a b = slicePCmp pcT a.slice b.slice)
      ∧ (cH a.header b.header = .lt → hsCmp cH cT a b = .lt)
      ∧ (cH a.header b.header = .gt → hsCmp cH cT a b = .gt)
      ∧ (cH a.header b.header = .eq → hsCmp cH cT a b = sliceCmp cT a.slice b.slice)
      ∧ (cH x.header y.header = .lt → hstrCmp cH x y = .lt)
      ∧ (cH x.header y.header = .eq → hstrCmp cH x y = sliceCmp byteCmp x.str y.str)
      ∧ (cH x.header y.header = .gt → hstrCmp cH x y = .gt)
      ∧ (pcH x.header y.header = none → hstrPCmp pcH x y = none)
      ∧ (pcH x.header y.header = some .lt → hstrPCmp pcH x y = some .lt)
      ∧ (pcH x.header y.header = some .gt → hstrPCmp pcH x y = some .gt)
      ∧ (pcH x.header y.header = some .eq
          → hstrPCmp pcH x y = some (sliceCmp byteCmp x.str y.str))
      ∧ hsHash hashH hashSlice a s = hashSlice a.slice (hashH a.header s)
      ∧ hstrHash hashH hashStr x s = hashStr x.str (hashH x.header s)
      ∧ hsHash traceHashH traceHashSlice a []
          = HashEv.hd a.header :: a.slice.map HashEv.elt := by
  refine ⟨?_, ?_, ?_, ?_, ?_, ?_, ?_, ?_, ?_, ?_, ?_, ?_, ?_, ?_, ?_, ?_, rfl, rfl, ?_⟩
  · simp [hsBEq, Bool.and_eq_true]
  · simp [hstrBEq, Bool.and_eq_true]
  · intro h; simp [hsPCmp, h]
  · intro h; simp [hsPCmp, h]
  · intro h; simp [hsPCmp, h]
  · intro h; simp [hsPCmp, h]
  · intro h; simp [hsCmp, h]
  · intro h; simp [hsCmp, h]
  · intro h; simp [hsCmp, h]
  · intro h; simp [hstrCmp, h]
  · intro h; simp [hstrCmp, h]
  · intro h; simp [hstrCmp, h]
  · intro h; simp [hstrPCmp, h]
  · intro h; simp [hstrPCmp, h]
  · intro h; simp [hstrPCmp, h]
  · intro h; simp [hstrPCmp, h]
  · simp [hsHash, traceHashH, traceHashSlice]

/-- Witness for C8: headers `1 < 2` force `Less` regardless of the payloads
`[9, 9]` and `[0]`, and equal header/text pairs are equal. -/
theorem claim_C8_witness :
    hsCmp compare compare (⟨1, [9, 9]⟩ : HeaderSliceVal Nat Nat) ⟨2, [0]⟩ = Ordering.lt
      ∧ hstrBEq (fun u v => u == v) (⟨1, [2]⟩ : HeaderStrVal Nat) ⟨1, [2]⟩ = true := by
  have h := claim_C8 (fun u v : Nat => u == v) (fun u v : Nat => u == v)
      (fun u v : Nat => some (compare u v)) (fun u v : Nat => some (compare u v))
      compare compare
      (fun (hd : Nat) (st : Nat) => st + hd) (fun l st => st + l.length)
      (fun l st => st + l.length)
      ⟨1, [9, 9]⟩ ⟨2, [0]⟩ ⟨1, [2]⟩ ⟨1, [2]⟩ 0
  exact ⟨h.2.2.2.2.2.2.1 (by decide), (h.2.1).2 ⟨by decide, by decide⟩⟩

/-- Claim C9: `HeaderStr::new_into` is exactly the byte-copying constructor
applied to the source text's UTF-8 bytes: the stored length equals the byte
length of the source, the stored payload equals the source's byte sequence,
and the UTF-8 invariant is inherited from the source; the 6-byte encoding of
"héllo" yields stored length 6. -/
theorem claim_C9 {H : Type} (mem : Mem Nat H) (s : List Nat) (header : H) :
    (headerStrNewInto mem s header = copy_from_into mem header (strBytes s)
      ∧ ((headerStrNewInto mem s header).1).lengthWord = some (strBytes s).length
      ∧ ((headerStrNewInto mem s header).1).header = some header
      ∧ storedBytesD (headerStrNewInto mem s header).1 s.length = s
      ∧ (isValidUtf8 s = true →
          isValidUtf8 (storedBytesD (headerStrNewInto mem s header).1 s.length) = true))
      ∧ ((headerStrNewInto (freshMem Nat Unit) [104, 195, 169, 108, 108, 111] ()).1).lengthWord
          = some 6
      ∧ isValidUtf8 [104, 195, 169, 108, 108, 111] = true := by
  have hsb := storedBytesD_copy mem s header
  refine ⟨⟨rfl, rfl, rfl, ?_, ?_⟩, rfl, by decide⟩
  · show storedBytesD (copy_from_into mem header s).1 s.length = s
    exact hsb
  · intro hv
    show isValidUtf8 (storedBytesD (copy_from_into mem header s).1 s.length) = true
    rw [hsb]
    exact hv

/-- Witness for C9 at the UTF-8 bytes of "héllo" with header `5`: stored
length 6 and a valid UTF-8 payload. -/
theorem claim_C9_witness :
    ((headerStrNewInto (freshMem Nat Nat) [104, 195, 169, 108, 108, 111] 5).1).lengthWord
        = some 6
      ∧ isValidUtf8
          (storedBytesD
            ((headerStrNewInto (freshMem Nat Nat) [104, 195, 169, 108, 108, 111] 5).1) 6)
        = true := by
  have h := claim_C9 (freshMem Nat Nat) [104, 195, 169, 108, 108, 111] 5
  exact ⟨h.1.2.1, h.1.2.2.2.2 (by decide)⟩
